import Mathlib

/-!
Verification of the dev-tinder Connection Workflow & Feed Engine.

Shallow embedding of the backend routes that form the core:
  * POST /request/send/:status/:toUserId      (requests router)
  * POST /request/review/:status/:fromUserId  (requests router)
  * GET  /user/feed                           (user router)
  * GET  /user/connections                    (user router)
  * DELETE /user/deleteconnections/:userId    (user router)

Users are identified by natural numbers (standing for Mongo ObjectIds).
A `ConnectionRequest` document stores the directed pair and a status
(the mongoose schema's enum: interested / ignored / accepted / rejected);
the automatic timestamps are not modelled, no claim mentions them.
The database snapshot is the list of user ids (in stable natural order,
which is the order Mongo returns documents in for unsorted queries) and
the list of connection-request documents.  `findOne` is `List.find?`,
`countDocuments`/`find` with `$nin` is a filter, `deleteOne {_id}` erases
exactly the found document, and mutating a found document and saving it
replaces the first matching list entry.
-/

inductive Status where
  | interested
  | ignored
  | accepted
  | rejected
deriving DecidableEq, Repr

structure ConnectionRequest where
  fromUserId : Nat
  toUserId : Nat
  status : Status
deriving DecidableEq, Repr

structure DB where
  users : List Nat
  requests : List ConnectionRequest
deriving DecidableEq, Repr

/-- Failure kinds of the send-request route, one per early-return branch. -/
inductive SendError where
  | invalidStatus
  | userNotFound
  | selfRequestForbidden
  | reverseRequestExists
  | duplicateRelationship
deriving DecidableEq, Repr

/-- Failure kinds of the review-request route, one per early-return branch.
The route has two distinct non-interested failures: `alreadyReviewed`
("has already been reviewed", fires on accepted/rejected records) and
`onlyInterestedReviewable` ("Only interested connection requests can be
reviewed", fires on ignored records). -/
inductive ReviewError where
  | invalidStatus
  | requestNotFound
  | alreadyReviewed
  | userNotFound
  | selfReviewForbidden
  | onlyInterestedReviewable
deriving DecidableEq, Repr

/-- Failure kind of the delete-connection route. -/
inductive RemoveError where
  | connectionNotFound
deriving DecidableEq, Repr

/-- Embedding of POST /request/send/:status/:toUserId.  The five checks in
source order: allowed status, target exists, not self, no reverse record,
no duplicate record; on success the new document is appended. -/
def sendRequest (db : DB) (fromUserId toUserId : Nat) (status : String) :
    Except SendError (ConnectionRequest × DB) :=
  if ¬ (status = "interested" ∨ status = "ignored") then
    .error .invalidStatus
  else if toUserId ∉ db.users then
    .error .userNotFound
  else if fromUserId = toUserId then
    .error .selfRequestForbidden
  else if db.requests.any
      (fun r => decide (r.fromUserId = toUserId ∧ r.toUserId = fromUserId)) then
    .error .reverseRequestExists
  else if db.requests.any
      (fun r => decide (r.fromUserId = fromUserId ∧ r.toUserId = toUserId)) then
    .error .duplicateRelationship
  else
    let st := if status = "interested" then Status.interested else Status.ignored
    let newRequest : ConnectionRequest := ⟨fromUserId, toUserId, st⟩
    .ok (newRequest, { db with requests := db.requests ++ [newRequest] })

/-- Replace the status of the first document matching the ordered pair;
this is what mutating the document returned by `findOne` and saving does. -/
def updateFirst (l : List ConnectionRequest) (fromId toId : Nat) (st : Status) :
    List ConnectionRequest :=
  match l with
  | [] => []
  | r :: rest =>
      if r.fromUserId = fromId ∧ r.toUserId = toId then
        { r with status := st } :: rest
      else
        r :: updateFirst rest fromId toId st

/-- Embedding of POST /request/review/:status/:fromUserId.  The acting
(authenticated) user is the receiver `toUserId`.  Checks in source order:
allowed status, record exists, not already accepted/rejected, sender still
exists, not a self review, record status is interested; on success the
record's status becomes the decision. -/
def reviewRequest (db : DB) (toUserId fromUserId : Nat) (status : String) :
    Except ReviewError (ConnectionRequest × DB) :=
  if ¬ (status = "accepted" ∨ status = "rejected") then
    .error .invalidStatus
  else
    match db.requests.find?
        (fun r => decide (r.fromUserId = fromUserId ∧ r.toUserId = toUserId)) with
    | none => .error .requestNotFound
    | some existingRequest =>
      if existingRequest.status = .accepted ∨ existingRequest.status = .rejected then
        .error .alreadyReviewed
      else if fromUserId ∉ db.users then
        .error .userNotFound
      else if fromUserId = toUserId then
        .error .selfReviewForbidden
      else if existingRequest.status ≠ .interested then
        .error .onlyInterestedReviewable
      else
        .ok ({ existingRequest with status :=
                 (if status = "accepted" then Status.accepted else Status.rejected) },
             { db with requests :=
                 (updateFirst db.requests fromUserId toUserId
                   (if status = "accepted" then Status.accepted else Status.rejected)) })

/-- Embedding of DELETE /user/deleteconnections/:userId: find an accepted
record between the pair in either direction, else 404; delete exactly the
found document. -/
def removeConnection (db : DB) (loggedInUserId userId : Nat) :
    Except RemoveError DB :=
  match db.requests.find? (fun r => decide (r.status = Status.accepted ∧
      ((r.fromUserId = loggedInUserId ∧ r.toUserId = userId) ∨
       (r.fromUserId = userId ∧ r.toUserId = loggedInUserId)))) with
  | none => .error .connectionNotFound
  | some connection => .ok { db with requests := db.requests.erase connection }

/-- Embedding of GET /user/connections: accepted records involving the user,
mapped to the counterpart's id. -/
def connectionsOf (db : DB) (userId : Nat) : List Nat :=
  (db.requests.filter (fun r => decide (r.status = Status.accepted ∧
      (r.fromUserId = userId ∨ r.toUserId = userId)))).map
    (fun r => if r.fromUserId = userId then r.toUserId else r.fromUserId)

/-- JS `parseInt(q) || d`: a missing or non-numeric query value (`parseInt`
returns NaN, modelled as `none`) and a parsed 0 (falsy) both fall back to
the default. -/
def parseIntOrDefault (q : Option Int) (d : Int) : Int :=
  match q with
  | none => d
  | some n => if n = 0 then d else n

/-- Effective page: `Math.max(parseInt(req.query.page) || 1, 1)`. -/
def effPage (q : Option Int) : Int :=
  max (parseIntOrDefault q 1) 1

/-- Effective limit: `Math.max(parseInt(req.query.limit) || 10, 1)`. -/
def effLimit (q : Option Int) : Int :=
  max (parseIntOrDefault q 10) 1

/-- Exclusion list for the feed: every endpoint of every record involving
the user, plus the user itself. -/
def excludedIds (db : DB) (userId : Nat) : List Nat :=
  userId ::
    (db.requests.filter
        (fun r => decide (r.fromUserId = userId ∨ r.toUserId = userId))).foldr
      (fun r acc => r.fromUserId :: r.toUserId :: acc) []

/-- Candidate users for the feed: users whose id is not in the exclusion
list (`$nin`), in the stable store order. -/
def candidates (db : DB) (userId : Nat) : List Nat :=
  db.users.filter (fun u => decide (u ∉ excludedIds db userId))

/-- Shape of the feed route's JSON answer.  `hasNextPage` is an `Option`
because the empty-page early return does not put the field in the JSON. -/
structure FeedResponse where
  feed : List Nat
  page : Int
  limit : Int
  total : Nat
  totalPages : Nat
  hasNextPage : Option Bool
deriving DecidableEq, Repr

/-- Embedding of GET /user/feed: sanitize page/limit, build the exclusion
list, count candidates, take the page slice; the empty-page early return
omits `hasNextPage`. -/
def getFeed (db : DB) (userId : Nat) (pageQ limitQ : Option Int) : FeedResponse :=
  let page := effPage pageQ
  let limit := effLimit limitQ
  let skip := ((page - 1) * limit).toNat
  let totalUsers := (candidates db userId).length
  let feedUsers := ((candidates db userId).drop skip).take limit.toNat
  if feedUsers.isEmpty then
    { feed := feedUsers, page := page, limit := limit, total := totalUsers,
      totalPages := (totalUsers + limit.toNat - 1) / limit.toNat,
      hasNextPage := none }
  else
    { feed := feedUsers, page := page, limit := limit, total := totalUsers,
      totalPages := (totalUsers + limit.toNat - 1) / limit.toNat,
      hasNextPage := some (decide (page * limit < (totalUsers : Int))) }

/-- One successful workflow operation.  The acting user is the
authenticated principal, which the auth middleware guarantees to exist in
the user collection. -/
inductive Step : DB → DB → Prop where
  | send (db : DB) (A B : Nat) (s : String) (r : ConnectionRequest) (db' : DB) :
      A ∈ db.users → sendRequest db A B s = .ok (r, db') → Step db db'
  | review (db : DB) (A B : Nat) (s : String) (r : ConnectionRequest) (db' : DB) :
      A ∈ db.users → reviewRequest db A B s = .ok (r, db') → Step db db'
  | remove (db : DB) (A B : Nat) (db' : DB) :
      A ∈ db.users → removeConnection db A B = .ok db' → Step db db'

/-- States reachable by the workflow operations from a store with no
relationship records. -/
def Reachable (db : DB) : Prop :=
  ∃ users₀ : List Nat, Relation.ReflTransGen Step ⟨users₀, []⟩ db

/-- No two distinct stored records share an unordered pair of endpoints. -/
def UnorderedUnique (db : DB) : Prop :=
  db.requests.Pairwise (fun r r' =>
    ¬ ((r.fromUserId = r'.fromUserId ∧ r.toUserId = r'.toUserId) ∨
       (r.fromUserId = r'.toUserId ∧ r.toUserId = r'.fromUserId)))

/-- No stored record is a self loop. -/
def NoSelfRecord (db : DB) : Prop :=
  ∀ r ∈ db.requests, r.fromUserId ≠ r.toUserId

section Helpers

/-- Existence form of the boolean pair search used by the send route. -/
theorem any_pair_iff (l : List ConnectionRequest) (a b : Nat) :
    (l.any (fun r => decide (r.fromUserId = a ∧ r.toUserId = b)) = true) ↔
    ∃ r ∈ l, r.fromUserId = a ∧ r.toUserId = b := by
  simp [List.any_eq_true]

end Helpers

/-- C10 (amended): a missing or non-numeric page/limit defaults to 1 and 10;
a parsed 0 is falsy in JS and also falls back to the default (so limit 0
becomes 10, not 1); negative parsed values are clamped up to 1; positive
values pass through; hence the effective page and limit are always at least
1 and the computed skip is never negative. -/
theorem pagination_sanitize_c10 :
    effPage none = 1 ∧ effLimit none = 10 ∧
    effPage (some 0) = 1 ∧ effLimit (some 0) = 10 ∧
    (∀ n : Int, n < 0 → effPage (some n) = 1 ∧ effLimit (some n) = 1) ∧
    (∀ n : Int, 1 ≤ n → effPage (some n) = n ∧ effLimit (some n) = n) ∧
    (∀ q q' : Option Int, 1 ≤ effPage q ∧ 1 ≤ effLimit q' ∧
      0 ≤ (effPage q - 1) * effLimit q') := by
  refine ⟨rfl, rfl, rfl, rfl, ?_, ?_, ?_⟩
  · intro n hn
    have hne : n ≠ 0 := by omega
    constructor <;> simp [effPage, effLimit, parseIntOrDefault, hne] <;> omega
  · intro n hn
    have hne : n ≠ 0 := by omega
    constructor <;> simp [effPage, effLimit, parseIntOrDefault, hne] <;> omega
  · intro q q'
    have hp : 1 ≤ effPage q := le_max_right _ _
    have hl : 1 ≤ effLimit q' := le_max_right _ _
    exact ⟨hp, hl, mul_nonneg (by omega) (by omega)⟩

/-- C10 counterexample: a parsed limit of 0 is not clamped up to 1; the
JS `|| 10` fallback fires first and the effective limit is 10. -/
theorem effLimit_zero_cex : effLimit (some 0) = 10 ∧ effLimit (some 0) ≠ 1 := by
  constructor <;> decide

/-- C10 witness: concrete sanitizations obtained from the theorem. -/
theorem pagination_sanitize_c10_witness :
    effPage (some (-7)) = 1 ∧ effLimit (some 5) = 5 ∧
    1 ≤ effPage (some 3) ∧ 0 ≤ (effPage (some 3) - 1) * effLimit (some 0) :=
  ⟨(pagination_sanitize_c10.2.2.2.2.1 (-7) (by decide)).1,
   (pagination_sanitize_c10.2.2.2.2.2.1 5 (by decide)).2,
   (pagination_sanitize_c10.2.2.2.2.2.2 (some 3) (some 0)).1,
   (pagination_sanitize_c10.2.2.2.2.2.2 (some 3) (some 0)).2.2⟩
/-- C5: sendRequest checks its five preconditions in source order, each
with a distinct failure, the earliest violated check winning; on success a
record with the given status is created, returned, and appended. -/
theorem sendRequest_check_order_c5 (db : DB) (fu tu : Nat) (s : String) :
    (sendRequest db fu tu s = .error .invalidStatus ↔
      ¬ (s = "interested" ∨ s = "ignored"))
  ∧ (sendRequest db fu tu s = .error .userNotFound ↔
      (s = "interested" ∨ s = "ignored") ∧ tu ∉ db.users)
  ∧ (sendRequest db fu tu s = .error .selfRequestForbidden ↔
      (s = "interested" ∨ s = "ignored") ∧ tu ∈ db.users ∧ fu = tu)
  ∧ (sendRequest db fu tu s = .error .reverseRequestExists ↔
      (s = "interested" ∨ s = "ignored") ∧ tu ∈ db.users ∧ fu ≠ tu ∧
      ∃ r ∈ db.requests, r.fromUserId = tu ∧ r.toUserId = fu)
  ∧ (sendRequest db fu tu s = .error .duplicateRelationship ↔
      (s = "interested" ∨ s = "ignored") ∧ tu ∈ db.users ∧ fu ≠ tu ∧
      (¬ ∃ r ∈ db.requests, r.fromUserId = tu ∧ r.toUserId = fu) ∧
      ∃ r ∈ db.requests, r.fromUserId = fu ∧ r.toUserId = tu)
  ∧ (∀ st : Status,
      ((s = "interested" ∧ st = .interested) ∨ (s = "ignored" ∧ st = .ignored)) →
      tu ∈ db.users → fu ≠ tu →
      (¬ ∃ r ∈ db.requests, r.fromUserId = tu ∧ r.toUserId = fu) →
      (¬ ∃ r ∈ db.requests, r.fromUserId = fu ∧ r.toUserId = tu) →
      sendRequest db fu tu s =
        .ok (⟨fu, tu, st⟩, ⟨db.users, db.requests ++ [⟨fu, tu, st⟩]⟩)) := by
  simp only [sendRequest]
  by_cases h1 : s = "interested" ∨ s = "ignored"
  · by_cases h2 : tu ∈ db.users
    · by_cases h3 : fu = tu
      · simp [h1, h2, h3]
      · by_cases h4 : ∃ r ∈ db.requests, r.fromUserId = tu ∧ r.toUserId = fu
        · simp [h1, h2, h3, h4, any_pair_iff]
        · by_cases h5 : ∃ r ∈ db.requests, r.fromUserId = fu ∧ r.toUserId = tu
          · simp [h1, h2, h3, h4, h5, any_pair_iff]
          · have h4b : db.requests.any
                (fun r => decide (r.fromUserId = tu ∧ r.toUserId = fu)) = false := by
              rw [← Bool.not_eq_true, any_pair_iff]; exact h4
            have h5b : db.requests.any
                (fun r => decide (r.fromUserId = fu ∧ r.toUserId = tu)) = false := by
              rw [← Bool.not_eq_true, any_pair_iff]; exact h5
            simp only [h1, h2, h3, h4, h5, h4b, h5b, not_true, not_false_iff,
              if_true, if_false, Bool.false_eq_true]
            refine ⟨by simp, by simp [h2], by simp [h3], by simp [h4], by simp [h5], ?_⟩
            intro st hst htu hfu hrev hdup
            rcases hst with ⟨hs, hst⟩ | ⟨hs, hst⟩ <;> subst hst <;> simp [hs]
    · simp [h1, h2]
  · have hs1 : s ≠ "interested" := fun h => h1 (Or.inl h)
    have hs2 : s ≠ "ignored" := fun h => h1 (Or.inr h)
    simp [h1, hs1, hs2]

/-- C5 witness: an input violating both the status check and the self check
gets the earliest failure, and a clean send succeeds with the record
appended. -/
theorem sendRequest_check_order_c5_witness :
    sendRequest ⟨[1], []⟩ 1 1 "bogus" = .error .invalidStatus ∧
    sendRequest ⟨[1, 2], []⟩ 1 2 "interested" =
      .ok (⟨1, 2, .interested⟩, ⟨[1, 2], [⟨1, 2, .interested⟩]⟩) :=
  ⟨(sendRequest_check_order_c5 ⟨[1], []⟩ 1 1 "bogus").1.mpr (by decide),
   (sendRequest_check_order_c5 ⟨[1, 2], []⟩ 1 2 "interested").2.2.2.2.2
     Status.interested (Or.inl ⟨rfl, rfl⟩) (by decide) (by decide)
     (by decide) (by decide)⟩

/-- Lookup of the ordered pair after updating the first matching record:
the updated record is found, since the update keeps the pair fields. -/
theorem find?_updateFirst (l : List ConnectionRequest) (f t : Nat) (st : Status)
    (r₀ : ConnectionRequest)
    (h : l.find? (fun x => decide (x.fromUserId = f ∧ x.toUserId = t)) = some r₀) :
    (updateFirst l f t st).find?
        (fun x => decide (x.fromUserId = f ∧ x.toUserId = t)) =
      some { r₀ with status := st } := by
  induction l with
  | nil => simp at h
  | cons x rest ih =>
    by_cases hx : x.fromUserId = f ∧ x.toUserId = t
    · rw [List.find?_cons_of_pos _ (by simpa using hx)] at h
      cases h
      rw [updateFirst, if_pos hx]
      exact List.find?_cons_of_pos _ (by simpa using hx)
    · rw [List.find?_cons_of_neg _ (by simpa using hx)] at h
      rw [updateFirst, if_neg hx, List.find?_cons_of_neg _ (by simpa using hx)]
      exact ih h

/-- Inversion of a successful review: the status string was a valid
decision, the looked-up record was a pending (interested) one from an
existing, distinct sender, and the store update replaces exactly the first
matching record's status with the decision. -/
theorem reviewRequest_ok_inv {db : DB} {toU fromU : Nat} {s : String}
    {r : ConnectionRequest} {db' : DB}
    (h : reviewRequest db toU fromU s = .ok (r, db')) :
    (s = "accepted" ∨ s = "rejected") ∧
    ∃ r₀, db.requests.find?
        (fun x => decide (x.fromUserId = fromU ∧ x.toUserId = toU)) = some r₀ ∧
      r₀.status = .interested ∧ fromU ∈ db.users ∧ fromU ≠ toU ∧
      r = { r₀ with status :=
              if s = "accepted" then Status.accepted else Status.rejected } ∧
      db' = { db with requests :=
                (updateFirst db.requests fromU toU
                  (if s = "accepted" then Status.accepted else Status.rejected)) } := by
  by_cases hv : s = "accepted" ∨ s = "rejected"
  · simp only [reviewRequest, if_neg (not_not_intro hv)] at h
    split at h
    · cases h
    · rename_i r₀ hfind
      split at h
      · cases h
      · split at h
        · cases h
        · split at h
          · cases h
          · split at h
            · cases h
            · rename_i hacc hmem hself hint
              rw [Except.ok.injEq, Prod.mk.injEq] at h
              exact ⟨hv, r₀, hfind, not_not.mp hint, not_not.mp hmem, hself,
                h.1.symm, h.2.symm⟩
  · rw [reviewRequest, if_pos hv] at h
    cases h

/-- C1 (amended): reviewing a stored request that was previously accepted
or rejected fails with AlreadyReviewed and the store is untouched (every
failure branch returns before any write).  A stored `ignored` record with
an existing, distinct sender also fails without a write, but with the
route's distinct "only interested connection requests can be reviewed"
failure rather than AlreadyReviewed.  Reviewing the same request twice
still yields success then AlreadyReviewed. -/
theorem reviewRequest_already_reviewed_c1 (db : DB) (toU fromU : Nat) (s : String) :
    (∀ r₀, db.requests.find?
        (fun x => decide (x.fromUserId = fromU ∧ x.toUserId = toU)) = some r₀ →
      (s = "accepted" ∨ s = "rejected") →
      ((r₀.status = .accepted ∨ r₀.status = .rejected) →
        reviewRequest db toU fromU s = .error .alreadyReviewed) ∧
      (r₀.status = .ignored → fromU ∈ db.users → fromU ≠ toU →
        reviewRequest db toU fromU s = .error .onlyInterestedReviewable)) ∧
    (∀ r db' s', reviewRequest db toU fromU s = .ok (r, db') →
      (s' = "accepted" ∨ s' = "rejected") →
      reviewRequest db' toU fromU s' = .error .alreadyReviewed) := by
  constructor
  · intro r₀ hfind hs
    constructor
    · intro hstat
      simp only [reviewRequest, if_neg (not_not_intro hs), hfind]
      rw [if_pos hstat]
    · intro hign hmem hself
      simp only [reviewRequest, if_neg (not_not_intro hs), hfind]
      rw [if_neg (by simp [hign]), if_neg (not_not_intro hmem), if_neg hself,
        if_pos (by simp [hign])]
  · intro r db' s' hok hs'
    obtain ⟨hv, r₀, hfind, hint, hmem, hself, hr, hdb'⟩ := reviewRequest_ok_inv hok
    subst hdb'
    have hfind' := find?_updateFirst db.requests fromU toU
      (if s = "accepted" then Status.accepted else Status.rejected) r₀ hfind
    simp only [reviewRequest, if_neg (not_not_intro hs'), hfind']
    rw [if_pos (by by_cases hc : s = "accepted" <;> simp [hc])]

/-- C1 counterexample: reviewing a stored `ignored` record fails, but with
the distinct only-interested failure, not AlreadyReviewed as claimed. -/
theorem review_ignored_not_alreadyReviewed_cex :
    reviewRequest ⟨[1, 2], [⟨2, 1, .ignored⟩]⟩ 1 2 "accepted" =
      .error .onlyInterestedReviewable ∧
    reviewRequest ⟨[1, 2], [⟨2, 1, .ignored⟩]⟩ 1 2 "accepted" ≠
      .error .alreadyReviewed := by
  constructor
  · rfl
  · intro h
    rw [show reviewRequest ⟨[1, 2], [⟨2, 1, .ignored⟩]⟩ 1 2 "accepted" =
        .error .onlyInterestedReviewable from rfl] at h
    cases h

/-- C1 witness: a concrete accepted record yields AlreadyReviewed on
review, and a concrete successful review makes the immediate second
review yield AlreadyReviewed. -/
theorem reviewRequest_already_reviewed_c1_witness :
    reviewRequest ⟨[1, 2], [⟨2, 1, .accepted⟩]⟩ 1 2 "rejected" =
      .error .alreadyReviewed ∧
    reviewRequest ⟨[1, 2], [⟨2, 1, .accepted⟩]⟩ 1 2 "accepted" =
      .error .alreadyReviewed :=
  ⟨((reviewRequest_already_reviewed_c1 ⟨[1, 2], [⟨2, 1, .accepted⟩]⟩ 1 2
      "rejected").1 ⟨2, 1, .accepted⟩ rfl (Or.inr rfl)).1 (Or.inl rfl),
   (reviewRequest_already_reviewed_c1 ⟨[1, 2], [⟨2, 1, .interested⟩]⟩ 1 2
      "accepted").2 ⟨2, 1, .accepted⟩ ⟨[1, 2], [⟨2, 1, .accepted⟩]⟩ "accepted"
      rfl (Or.inl rfl)⟩

/-- Normal form of the feed route's answer: both branches return the same
slice and counters; only `hasNextPage` depends on the branch. -/
theorem getFeed_eq (db : DB) (u : Nat) (pq lq : Option Int) :
    getFeed db u pq lq =
      { feed := ((candidates db u).drop
            (((effPage pq - 1) * effLimit lq).toNat)).take (effLimit lq).toNat,
        page := effPage pq, limit := effLimit lq,
        total := (candidates db u).length,
        totalPages := ((candidates db u).length + (effLimit lq).toNat - 1) /
          (effLimit lq).toNat,
        hasNextPage :=
          if ((candidates db u).drop
              (((effPage pq - 1) * effLimit lq).toNat)).take (effLimit lq).toNat = []
          then none
          else some (decide
            (effPage pq * effLimit lq < (((candidates db u).length : Int)))) } := by
  simp only [getFeed]
  split
  · rename_i hemp
    rw [if_pos (by simpa [List.isEmpty_iff] using hemp)]
  · rename_i hemp
    rw [if_neg (by simpa [List.isEmpty_iff] using hemp)]

/-- Lower bound of the effective limit, as a natural number. -/
theorem effLimit_toNat_pos (lq : Option Int) : 1 ≤ (effLimit lq).toNat := by
  have h : 1 ≤ effLimit lq := le_max_right _ _
  omega

/-- Ceiling division brackets: `(n + k - 1) / k` is the least number of
pages of size `k` covering `n` items. -/
theorem ceil_div_bounds (n k : Nat) (hk : 1 ≤ k) :
    n ≤ ((n + k - 1) / k) * k ∧ ((n + k - 1) / k) * k < n + k := by
  have h1 := Nat.div_add_mod (n + k - 1) k
  have h2 : (n + k - 1) % k < k := Nat.mod_lt _ (by omega)
  have h3 : ((n + k - 1) / k) * k = k * ((n + k - 1) / k) := Nat.mul_comm _ _
  rw [h3]
  generalize k * ((n + k - 1) / k) = M at h1 ⊢
  generalize (n + k - 1) % k = r at h1 h2
  omega

/-- C2 (amended): every feed answer carries `total` equal to the number of
users outside the exclusion set and `totalPages` equal to
ceil(total/pageSize) (characterized by the two ceiling inequalities).
`hasNextPage = (page*pageSize < total)` is carried only when the returned
page of items is nonempty; the empty-page early return omits the field. -/
theorem getFeed_pagination_fields_c2 (db : DB) (u : Nat) (pq lq : Option Int) :
    (getFeed db u pq lq).total = (candidates db u).length ∧
    (getFeed db u pq lq).total ≤
      (getFeed db u pq lq).totalPages * (effLimit lq).toNat ∧
    (getFeed db u pq lq).totalPages * (effLimit lq).toNat <
      (getFeed db u pq lq).total + (effLimit lq).toNat ∧
    ((getFeed db u pq lq).feed ≠ [] →
      (getFeed db u pq lq).hasNextPage =
        some (decide (effPage pq * effLimit lq < (((candidates db u).length : Int))))) ∧
    ((getFeed db u pq lq).feed = [] → (getFeed db u pq lq).hasNextPage = none) := by
  obtain ⟨h1, h2⟩ := ceil_div_bounds (candidates db u).length (effLimit lq).toNat
    (effLimit_toNat_pos lq)
  rw [getFeed_eq]
  refine ⟨rfl, h1, h2, ?_, ?_⟩
  · intro hne
    simp only []
    rw [if_neg hne]
  · intro he
    simp only []
    rw [if_pos he]

/-- C2 counterexample: a beyond-range page returns an empty item list and
its JSON answer carries no `hasNextPage` field at all, although the claim
requires `hasNextPage = (2*10 < 2) = false` there. -/
theorem getFeed_empty_page_omits_hasNextPage_cex :
    (getFeed ⟨[1, 2, 3], []⟩ 1 (some 2) (some 10)).feed = [] ∧
    (getFeed ⟨[1, 2, 3], []⟩ 1 (some 2) (some 10)).hasNextPage = none := ⟨rfl, rfl⟩

/-- C2 witness: a nonempty first page carries both correct fields. -/
theorem getFeed_pagination_fields_c2_witness :
    (getFeed ⟨[1, 2, 3], []⟩ 1 none none).total = 2 ∧
    (getFeed ⟨[1, 2, 3], []⟩ 1 none none).hasNextPage = some false :=
  ⟨(getFeed_pagination_fields_c2 ⟨[1, 2, 3], []⟩ 1 none none).1,
   by
    have h := (getFeed_pagination_fields_c2 ⟨[1, 2, 3], []⟩ 1 none none).2.2.2.1
      (by decide)
    rw [h]; rfl⟩

/-- Membership in the endpoint accumulation used by the feed's exclusion
set. -/
theorem mem_endpoints_foldr (l : List ConnectionRequest) (x : Nat) :
    (x ∈ l.foldr (fun r acc => r.fromUserId :: r.toUserId :: acc) []) ↔
    ∃ r ∈ l, x = r.fromUserId ∨ x = r.toUserId := by
  induction l with
  | nil => simp
  | cons a t ih => simp [ih, or_assoc]

/-- Membership in the feed exclusion list: the user itself, or an endpoint
of some record involving the user. -/
theorem mem_excludedIds (db : DB) (u x : Nat) :
    x ∈ excludedIds db u ↔
    x = u ∨ ∃ r ∈ db.requests, (r.fromUserId = u ∨ r.toUserId = u) ∧
      (x = r.fromUserId ∨ x = r.toUserId) := by
  simp only [excludedIds, List.mem_cons, mem_endpoints_foldr, List.mem_filter,
    decide_eq_true_eq]
  constructor
  · rintro (h | ⟨r, ⟨hr, hi⟩, hx⟩)
    · exact Or.inl h
    · exact Or.inr ⟨r, hr, hi, hx⟩
  · rintro (h | ⟨r, hr, hi, hx⟩)
    · exact Or.inl h
    · exact Or.inr ⟨r, ⟨hr, hi⟩, hx⟩

/-- Membership among feed candidates. -/
theorem mem_candidates (db : DB) (u v : Nat) :
    v ∈ candidates db u ↔ v ∈ db.users ∧ ¬ v ∈ excludedIds db u := by
  simp [candidates, List.mem_filter]

/-- C4: the feed never returns the caller, and never returns a user that
shares a relationship record with the caller in either direction, whatever
the record's status; in particular both halves of an accepted connection
are invisible to each other's feed, on every page. -/
theorem getFeed_exclusion_c4 (db : DB) (u : Nat) (pq lq : Option Int) (v : Nat)
    (hv : v ∈ (getFeed db u pq lq).feed) :
    v ≠ u ∧ v ∈ db.users ∧
    (∀ r ∈ db.requests,
      ¬ (r.fromUserId = u ∧ r.toUserId = v) ∧
      ¬ (r.fromUserId = v ∧ r.toUserId = u)) ∧
    (∀ r ∈ db.requests, r.status = .accepted →
      (r.fromUserId = u → v ≠ r.toUserId) ∧ (r.toUserId = u → v ≠ r.fromUserId)) := by
  rw [getFeed_eq] at hv
  have hcand : v ∈ candidates db u :=
    List.drop_subset _ _ (List.take_subset _ _ hv)
  rw [mem_candidates] at hcand
  obtain ⟨hmem, hex⟩ := hcand
  have hne : v ≠ u := by
    intro h
    exact hex ((mem_excludedIds db u v).mpr (Or.inl h))
  have hrec : ∀ r ∈ db.requests,
      ¬ (r.fromUserId = u ∧ r.toUserId = v) ∧
      ¬ (r.fromUserId = v ∧ r.toUserId = u) := by
    intro r hr
    constructor
    · rintro ⟨hf, ht⟩
      exact hex ((mem_excludedIds db u v).mpr
        (Or.inr ⟨r, hr, Or.inl hf, Or.inr ht.symm⟩))
    · rintro ⟨hf, ht⟩
      exact hex ((mem_excludedIds db u v).mpr
        (Or.inr ⟨r, hr, Or.inr ht, Or.inl hf.symm⟩))
  refine ⟨hne, hmem, hrec, ?_⟩
  intro r hr _
  constructor
  · intro hf ht
    exact (hrec r hr).1 ⟨hf, ht.symm⟩
  · intro ht hf
    exact (hrec r hr).2 ⟨hf.symm, ht⟩

/-- C4 witness: with one accepted record between users 1 and 2 and a third
user 3, the feed of user 1 contains 3, and the theorem yields that 3 is
neither the caller nor related to the caller. -/
theorem getFeed_exclusion_c4_witness :
    (3 : Nat) ≠ 1 ∧ (3 : Nat) ∈ (DB.mk [1, 2, 3] [⟨1, 2, .accepted⟩]).users ∧
    (∀ r ∈ (DB.mk [1, 2, 3] [⟨1, 2, .accepted⟩]).requests,
      ¬ (r.fromUserId = 1 ∧ r.toUserId = 3) ∧
      ¬ (r.fromUserId = 3 ∧ r.toUserId = 1)) ∧
    (∀ r ∈ (DB.mk [1, 2, 3] [⟨1, 2, .accepted⟩]).requests, r.status = .accepted →
      (r.fromUserId = 1 → (3 : Nat) ≠ r.toUserId) ∧
      (r.toUserId = 1 → (3 : Nat) ≠ r.fromUserId)) :=
  getFeed_exclusion_c4 ⟨[1, 2, 3], [⟨1, 2, .accepted⟩]⟩ 1 none none 3 (by decide)

/-- Concatenating the size-`k` chunks of a list reassembles the list, as
long as enough chunks are taken. -/
theorem join_chunks (k : Nat) :
    ∀ (n : Nat) (l : List Nat), l.length ≤ n * k →
    (((List.range n).map (fun i => (l.drop (i * k)).take k)).flatten) = l := by
  intro n
  induction n with
  | zero =>
    intro l h
    rw [Nat.zero_mul, Nat.le_zero] at h
    simp [List.eq_nil_of_length_eq_zero h]
  | succ m ih =>
    intro l h
    rw [List.range_succ_eq_map, List.map_cons, List.flatten_cons, Nat.zero_mul,
      List.drop_zero, List.map_map]
    have hcomp : ((fun i => (l.drop (i * k)).take k) ∘ Nat.succ) =
        (fun i => (((l.drop k).drop (i * k)).take k)) := by
      funext i
      simp only [Function.comp_apply, List.drop_drop, Nat.succ_eq_add_one]
      congr 2
      ring
    have hlen : (l.drop k).length ≤ m * k := by
      rw [List.length_drop]
      rw [Nat.succ_mul] at h
      generalize m * k = M at h ⊢
      omega
    rw [hcomp, ih (l.drop k) hlen]
    exact List.take_append_drop k l

/-- Effective limit of an explicitly supplied positive page size. -/
theorem effLimit_pos_nat (k : Nat) (hk : 1 ≤ k) :
    effLimit (some (k : Int)) = (k : Int) := by
  simp only [effLimit, parseIntOrDefault]
  rw [if_neg (show ¬ ((k : Int) = 0) by omega)]
  exact max_eq_left (by omega)

/-- Effective page of an explicitly supplied positive page number. -/
theorem effPage_pos_nat (p : Nat) (hp : 1 ≤ p) :
    effPage (some (p : Int)) = (p : Int) := by
  simp only [effPage, parseIntOrDefault]
  rw [if_neg (show ¬ ((p : Int) = 0) by omega)]
  exact max_eq_left (by omega)

/-- Page `i+1` of the feed with page size `k` is the `i`-th size-`k` chunk
of the candidate list. -/
theorem getFeed_feed_chunk (db : DB) (u : Nat) (k : Nat) (hk : 1 ≤ k) (i : Nat) :
    (getFeed db u (some ((i + 1 : Nat) : Int)) (some (k : Int))).feed =
    ((candidates db u).drop (i * k)).take k := by
  rw [getFeed_eq]
  simp only [effLimit_pos_nat k hk, effPage_pos_nat (i + 1) (by omega)]
  have h1 : (((i + 1 : Nat) : Int) - 1) * (k : Int) = ((i * k : Nat) : Int) := by
    push_cast
    ring
  rw [h1, Int.toNat_natCast, Int.toNat_natCast]

/-- C3: for a fixed snapshot and any page size, the pages 1..totalPages of
the feed concatenate to exactly the candidate list, in its stable store
order, hence with no duplicates (when user ids are unique) and no
omissions. -/
theorem getFeed_pages_partition_c3 (db : DB) (u : Nat) (k : Nat) (hk : 1 ≤ k) :
    (((List.range (getFeed db u (some 1) (some (k : Int))).totalPages).map
        (fun i => (getFeed db u (some ((i + 1 : Nat) : Int)) (some (k : Int))).feed)).flatten)
      = candidates db u ∧
    (db.users.Nodup → (candidates db u).Nodup) := by
  constructor
  · have htp : (getFeed db u (some 1) (some (k : Int))).totalPages =
        ((candidates db u).length + k - 1) / k := by
      rw [getFeed_eq]
      simp only [effLimit_pos_nat k hk, Int.toNat_natCast]
    rw [htp]
    rw [List.map_congr_left (fun i _ => getFeed_feed_chunk db u k hk i)]
    exact join_chunks k _ _ (ceil_div_bounds (candidates db u).length k hk).1
  · intro hnd
    exact hnd.filter _

/-- C3 witness: three candidates and page size 2 give two pages that
concatenate to the full candidate list, duplicate-free. -/
theorem getFeed_pages_partition_c3_witness :
    (((List.range (getFeed ⟨[1, 2, 3, 4], []⟩ 1 (some 1) (some 2)).totalPages).map
        (fun i => (getFeed ⟨[1, 2, 3, 4], []⟩ 1 (some ((i + 1 : Nat) : Int))
          (some 2)).feed)).flatten) = candidates ⟨[1, 2, 3, 4], []⟩ 1 ∧
    (candidates ⟨[1, 2, 3, 4], []⟩ 1).Nodup :=
  ⟨((getFeed_pages_partition_c3 ⟨[1, 2, 3, 4], []⟩ 1 2 (by decide)).1 : _),
   (getFeed_pages_partition_c3 ⟨[1, 2, 3, 4], []⟩ 1 2 (by decide)).2 (by decide)⟩

/-- Inversion of a successful send: the status string was allowed, the
target exists, it is not a self request, neither direction was already
recorded, and the store gained exactly the new record at the end. -/
theorem sendRequest_ok_inv {db : DB} {fu tu : Nat} {s : String}
    {r : ConnectionRequest} {db' : DB}
    (h : sendRequest db fu tu s = .ok (r, db')) :
    (s = "interested" ∨ s = "ignored") ∧ tu ∈ db.users ∧ fu ≠ tu ∧
    (∀ x ∈ db.requests, ¬ (x.fromUserId = tu ∧ x.toUserId = fu)) ∧
    (∀ x ∈ db.requests, ¬ (x.fromUserId = fu ∧ x.toUserId = tu)) ∧
    r = ⟨fu, tu, if s = "interested" then Status.interested else Status.ignored⟩ ∧
    db' = ⟨db.users, db.requests ++ [r]⟩ := by
  by_cases hv : s = "interested" ∨ s = "ignored"
  · simp only [sendRequest, if_neg (not_not_intro hv)] at h
    split at h
    · cases h
    · split at h
      · cases h
      · split at h
        · cases h
        · split at h
          · cases h
          · rename_i hmem hself hrev hdup
            rw [Except.ok.injEq, Prod.mk.injEq] at h
            refine ⟨hv, not_not.mp hmem, hself, ?_, ?_, h.1.symm, ?_⟩
            · intro x hx hpair
              exact hrev ((any_pair_iff db.requests tu fu).mpr ⟨x, hx, hpair⟩)
            · intro x hx hpair
              exact hdup ((any_pair_iff db.requests fu tu).mpr ⟨x, hx, hpair⟩)
            · rw [← h.2, ← h.1]
  · rw [sendRequest, if_pos hv] at h
    cases h

/-- Updating the first matching record leaves every other stored record in
place: a stored record either survives untouched or is the one the lookup
finds. -/
theorem updateFirst_mem (l : List ConnectionRequest) (f t : Nat) (st : Status) :
    ∀ r ∈ l, r ∈ updateFirst l f t st ∨
      l.find? (fun x => decide (x.fromUserId = f ∧ x.toUserId = t)) = some r := by
  induction l with
  | nil => intro r hr; cases hr
  | cons x rest ih =>
    intro r hr
    by_cases hx : x.fromUserId = f ∧ x.toUserId = t
    · rw [List.find?_cons_of_pos _ (by simpa using hx)]
      rcases List.mem_cons.mp hr with hr | hr
      · subst hr
        exact Or.inr rfl
      · rw [updateFirst, if_pos hx]
        exact Or.inl (List.mem_cons_of_mem _ hr)
    · rw [List.find?_cons_of_neg _ (by simpa using hx), updateFirst, if_neg hx]
      rcases List.mem_cons.mp hr with hr | hr
      · subst hr
        exact Or.inl (List.mem_cons_self _ _)
      · rcases ih r hr with h | h
        · exact Or.inl (List.mem_cons_of_mem _ h)
        · exact Or.inr h

/-- Inversion of a successful connection removal: an accepted record
between the pair (in one direction or the other) was found and exactly
that record is erased. -/
theorem removeConnection_ok_inv {db : DB} {a b : Nat} {db' : DB}
    (h : removeConnection db a b = .ok db') :
    ∃ conn, db.requests.find? (fun r => decide (r.status = Status.accepted ∧
        ((r.fromUserId = a ∧ r.toUserId = b) ∨
         (r.fromUserId = b ∧ r.toUserId = a)))) = some conn ∧
      conn.status = .accepted ∧
      ((conn.fromUserId = a ∧ conn.toUserId = b) ∨
       (conn.fromUserId = b ∧ conn.toUserId = a)) ∧
      db' = ⟨db.users, db.requests.erase conn⟩ := by
  simp only [removeConnection] at h
  split at h
  · cases h
  · rename_i conn hfind
    rw [Except.ok.injEq] at h
    have hp := List.find?_some hfind
    rw [decide_eq_true_eq] at hp
    exact ⟨conn, hfind, hp.1, hp.2, h.symm⟩

/-- C7: along any workflow step, a stored record either survives
unchanged, or flips from interested to the review decision (accepted or
rejected), or is an accepted record deleted by connection removal; in
particular ignored, accepted and rejected records are never modified. -/
theorem status_transitions_c7 (db db' : DB) (hstep : Step db db') :
    ∀ r ∈ db.requests,
      r ∈ db'.requests ∨
      (r.status = .interested ∧
        ((⟨r.fromUserId, r.toUserId, .accepted⟩ : ConnectionRequest) ∈ db'.requests ∨
         (⟨r.fromUserId, r.toUserId, .rejected⟩ : ConnectionRequest) ∈ db'.requests)) ∨
      (r.status = .accepted ∧ r ∉ db'.requests) := by
  intro r hr
  cases hstep with
  | send A B s r₀ db₂ hA hok =>
    obtain ⟨_, _, _, _, _, _, hdb'⟩ := sendRequest_ok_inv hok
    subst hdb'
    exact Or.inl (List.mem_append_left _ hr)
  | review A B s r₀ db₂ hA hok =>
    obtain ⟨hv, rfound, hfind, hint, hmem, hself, hr₀, hdb'⟩ := reviewRequest_ok_inv hok
    subst hdb'
    rcases updateFirst_mem db.requests B A
        (if s = "accepted" then Status.accepted else Status.rejected) r hr with
      hm | hfound
    · exact Or.inl hm
    · have hreq : r = rfound := by
        rw [hfound] at hfind
        exact Option.some.inj hfind
      subst hreq
      right; left
      refine ⟨hint, ?_⟩
      have hupd := find?_updateFirst db.requests B A
        (if s = "accepted" then Status.accepted else Status.rejected) r hfound
      have hm := List.mem_of_find?_eq_some hupd
      by_cases hsc : s = "accepted"
      · simp only [if_pos hsc] at hm ⊢
        exact Or.inl hm
      · simp only [if_neg hsc] at hm ⊢
        exact Or.inr hm
  | remove A B db₂ hA hok =>
    obtain ⟨conn, hfind, hacc, hpair, hdb'⟩ := removeConnection_ok_inv hok
    subst hdb'
    by_cases hc : r = conn
    · by_cases hm : r ∈ db.requests.erase conn
      · exact Or.inl hm
      · exact Or.inr (Or.inr ⟨hc ▸ hacc, hm⟩)
    · exact Or.inl ((List.mem_erase_of_ne hc).mpr hr)

/-- C7 witness: a concrete review step flips a concrete interested record
to accepted. -/
theorem status_transitions_c7_witness :
    (⟨1, 2, .interested⟩ : ConnectionRequest) ∈
      (DB.mk [1, 2] [⟨1, 2, .accepted⟩]).requests ∨
    ((⟨1, 2, .interested⟩ : ConnectionRequest).status = .interested ∧
      ((⟨1, 2, .accepted⟩ : ConnectionRequest) ∈
        (DB.mk [1, 2] [⟨1, 2, .accepted⟩]).requests ∨
       (⟨1, 2, .rejected⟩ : ConnectionRequest) ∈
        (DB.mk [1, 2] [⟨1, 2, .accepted⟩]).requests)) ∨
    ((⟨1, 2, .interested⟩ : ConnectionRequest).status = .accepted ∧
      (⟨1, 2, .interested⟩ : ConnectionRequest) ∉
        (DB.mk [1, 2] [⟨1, 2, .accepted⟩]).requests) :=
  status_transitions_c7 ⟨[1, 2], [⟨1, 2, .interested⟩]⟩ ⟨[1, 2], [⟨1, 2, .accepted⟩]⟩
    (Step.review ⟨[1, 2], [⟨1, 2, .interested⟩]⟩ 2 1 "accepted" ⟨1, 2, .accepted⟩
      ⟨[1, 2], [⟨1, 2, .accepted⟩]⟩ (by decide) rfl)
    ⟨1, 2, .interested⟩ (by decide)

/-- Updating the first matching record never changes any record's pair of
endpoints. -/
theorem updateFirst_pairs (l : List ConnectionRequest) (f t : Nat) (st : Status) :
    ∀ r' ∈ updateFirst l f t st, ∃ r ∈ l,
      r'.fromUserId = r.fromUserId ∧ r'.toUserId = r.toUserId := by
  induction l with
  | nil => intro r' hr'; cases hr'
  | cons x rest ih =>
    intro r' hr'
    by_cases hx : x.fromUserId = f ∧ x.toUserId = t
    · rw [updateFirst, if_pos hx] at hr'
      rcases List.mem_cons.mp hr' with hr' | hr'
      · subst hr'
        exact ⟨x, List.mem_cons_self _ _, rfl, rfl⟩
      · exact ⟨r', List.mem_cons_of_mem _ hr', rfl, rfl⟩
    · rw [updateFirst, if_neg hx] at hr'
      rcases List.mem_cons.mp hr' with hr' | hr'
      · subst hr'
        exact ⟨r', List.mem_cons_self _ _, rfl, rfl⟩
      · obtain ⟨r, hr, h1, h2⟩ := ih r' hr'
        exact ⟨r, List.mem_cons_of_mem _ hr, h1, h2⟩

/-- Every workflow step preserves the absence of self-loop records. -/
theorem noSelf_step {db db' : DB} (h : Step db db') (hns : NoSelfRecord db) :
    NoSelfRecord db' := by
  cases h with
  | send A B s r₀ db₂ hA hok =>
    obtain ⟨_, _, hAB, _, _, hr₀, hdb'⟩ := sendRequest_ok_inv hok
    subst hdb'
    intro r hr
    rcases List.mem_append.mp hr with hr | hr
    · exact hns r hr
    · rw [List.mem_singleton] at hr
      subst hr
      rw [hr₀]
      exact hAB
  | review A B s r₀ db₂ hA hok =>
    obtain ⟨_, _, _, _, _, _, _, hdb'⟩ := reviewRequest_ok_inv hok
    subst hdb'
    intro r hr
    obtain ⟨r', hr', h1, h2⟩ := updateFirst_pairs db.requests B A _ r hr
    rw [h1, h2]
    exact hns r' hr'
  | remove A B db₂ hA hok =>
    obtain ⟨conn, _, _, _, hdb'⟩ := removeConnection_ok_inv hok
    subst hdb'
    intro r hr
    exact hns r (List.mem_of_mem_erase hr)

/-- Every reachable store has no self-loop records. -/
theorem noSelf_reachable {db : DB} (h : Reachable db) : NoSelfRecord db := by
  obtain ⟨us, hrt⟩ := h
  induction hrt with
  | refl => intro r hr; cases hr
  | tail hab hbc ih => exact noSelf_step hbc ih

/-- C9: in every state reachable by the workflow operations, no call to
the review route can reach the SelfReviewForbidden branch: `sendRequest`
rejects self requests, so no record with `fromUser = toUser` is ever
stored, and the record-existence check then rules the self case out
before the explicit self check runs. -/
theorem selfReview_unreachable_c9 (db : DB) (h : Reachable db)
    (toU fromU : Nat) (s : String) :
    reviewRequest db toU fromU s ≠ .error .selfReviewForbidden := by
  have hns := noSelf_reachable h
  intro hcontra
  by_cases hv : s = "accepted" ∨ s = "rejected"
  · rcases hf : db.requests.find?
        (fun x => decide (x.fromUserId = fromU ∧ x.toUserId = toU)) with _ | r₀
    · simp only [reviewRequest, if_neg (not_not_intro hv), hf] at hcontra
      cases hcontra
    · simp only [reviewRequest, if_neg (not_not_intro hv), hf] at hcontra
      have hp := List.find?_some hf
      rw [decide_eq_true_eq] at hp
      have hmem := List.mem_of_find?_eq_some hf
      split at hcontra
      · cases hcontra
      · split at hcontra
        · cases hcontra
        · split at hcontra
          · rename_i hself
            exact hns r₀ hmem (hp.1.trans (hself.trans hp.2.symm))
          · split at hcontra
            · cases hcontra
            · cases hcontra
  · rw [reviewRequest, if_pos hv] at hcontra
    cases hcontra

/-- C9 witness: in the reachable empty store a self review does not hit
the SelfReviewForbidden branch (it fails earlier as RequestNotFound). -/
theorem selfReview_unreachable_c9_witness :
    reviewRequest ⟨[], []⟩ 0 0 "accepted" ≠ .error .selfReviewForbidden :=
  selfReview_unreachable_c9 ⟨[], []⟩ ⟨[], Relation.ReflTransGen.refl⟩ 0 0 "accepted"

/-- Pair uniqueness makes the stored record list duplicate-free. -/
theorem unordered_nodup {db : DB} (h : UnorderedUnique db) : db.requests.Nodup :=
  h.imp (fun hR heq => hR (by subst heq; exact Or.inl ⟨rfl, rfl⟩))

/-- Membership in the connections listing: some accepted record involves
the user and the member is its counterpart. -/
theorem mem_connectionsOf (db : DB) (u v : Nat) :
    v ∈ connectionsOf db u ↔ ∃ r ∈ db.requests, r.status = .accepted ∧
      (r.fromUserId = u ∨ r.toUserId = u) ∧
      v = (if r.fromUserId = u then r.toUserId else r.fromUserId) := by
  simp only [connectionsOf, List.mem_map, List.mem_filter, decide_eq_true_eq]
  constructor
  · rintro ⟨r, ⟨hr, hacc, hi⟩, hv⟩
    exact ⟨r, hr, hacc, hi, hv.symm⟩
  · rintro ⟨r, hr, hacc, hi, hv⟩
    exact ⟨r, ⟨hr, hacc, hi⟩, hv.symm⟩

/-- With pair uniqueness, any two stored records over the same unordered
pair coincide. -/
theorem unordered_eq {db : DB} (h : UnorderedUnique db) {u v : Nat}
    {r r' : ConnectionRequest} (hr : r ∈ db.requests) (hr' : r' ∈ db.requests)
    (hp : (r.fromUserId = u ∧ r.toUserId = v) ∨ (r.fromUserId = v ∧ r.toUserId = u))
    (hp' : (r'.fromUserId = u ∧ r'.toUserId = v) ∨ (r'.fromUserId = v ∧ r'.toUserId = u)) :
    r = r' := by
  by_contra hne
  have hsym : Symmetric (fun a b : ConnectionRequest =>
      ¬ ((a.fromUserId = b.fromUserId ∧ a.toUserId = b.toUserId) ∨
         (a.fromUserId = b.toUserId ∧ a.toUserId = b.fromUserId))) := by
    intro a b hab hba
    apply hab
    rcases hba with ⟨h1, h2⟩ | ⟨h1, h2⟩
    · exact Or.inl ⟨h1.symm, h2.symm⟩
    · exact Or.inr ⟨h2.symm, h1.symm⟩
  have hR := List.Pairwise.forall hsym h hr hr' hne
  apply hR
  rcases hp with ⟨h1, h2⟩ | ⟨h1, h2⟩ <;> rcases hp' with ⟨h3, h4⟩ | ⟨h3, h4⟩
  · exact Or.inl ⟨h1.trans h3.symm, h2.trans h4.symm⟩
  · exact Or.inr ⟨h1.trans h4.symm, h2.trans h3.symm⟩
  · exact Or.inr ⟨h1.trans h4.symm, h2.trans h3.symm⟩
  · exact Or.inl ⟨h1.trans h3.symm, h2.trans h4.symm⟩

/-- C8: removing a connection succeeds exactly when an accepted record
exists between the pair in either direction; the only failure is
ConnectionNotFound (and the functional result carries no state change);
on success exactly the found record is erased, after which (under the
store's pair-uniqueness constraint) neither user lists the other as a
connection any more and a fresh send between the pair succeeds. -/
theorem removeConnection_spec_c8 (db : DB) (u v : Nat) :
    ((∃ db', removeConnection db u v = .ok db') ↔
      ∃ r ∈ db.requests, r.status = .accepted ∧
        ((r.fromUserId = u ∧ r.toUserId = v) ∨ (r.fromUserId = v ∧ r.toUserId = u))) ∧
    (∀ e, removeConnection db u v = .error e → e = .connectionNotFound) ∧
    (∀ db', removeConnection db u v = .ok db' →
      db'.users = db.users ∧
      (∃ conn, db.requests.find? (fun r => decide (r.status = Status.accepted ∧
          ((r.fromUserId = u ∧ r.toUserId = v) ∨
           (r.fromUserId = v ∧ r.toUserId = u)))) = some conn ∧
        db'.requests = db.requests.erase conn) ∧
      (UnorderedUnique db →
        v ∉ connectionsOf db' u ∧ u ∉ connectionsOf db' v ∧
        (v ∈ db.users → u ≠ v → ∃ p, sendRequest db' u v "interested" = .ok p))) := by
  refine ⟨?_, ?_, ?_⟩
  · constructor
    · rintro ⟨db', hok⟩
      obtain ⟨conn, hfind, hacc, hpair, _⟩ := removeConnection_ok_inv hok
      exact ⟨conn, List.mem_of_find?_eq_some hfind, hacc, hpair⟩
    · rintro ⟨r, hr, hacc, hpair⟩
      rcases hf : db.requests.find? (fun x => decide (x.status = Status.accepted ∧
          ((x.fromUserId = u ∧ x.toUserId = v) ∨
           (x.fromUserId = v ∧ x.toUserId = u)))) with _ | conn
      · exfalso
        have hnp := List.find?_eq_none.mp hf r hr
        apply hnp
        rw [decide_eq_true_eq]
        exact ⟨hacc, hpair⟩
      · exact ⟨⟨db.users, db.requests.erase conn⟩, by simp only [removeConnection, hf]⟩
  · intro e _
    cases e
    rfl
  · intro db' hok
    obtain ⟨conn, hfind, hacc, hpair, hdb'⟩ := removeConnection_ok_inv hok
    subst hdb'
    refine ⟨rfl, ⟨conn, hfind, rfl⟩, ?_⟩
    intro hU
    have hnd := unordered_nodup hU
    have hconnmem := List.mem_of_find?_eq_some hfind
    have hnone : ∀ r ∈ db.requests.erase conn,
        ¬ ((r.fromUserId = u ∧ r.toUserId = v) ∨
           (r.fromUserId = v ∧ r.toUserId = u)) := by
      intro r hr hp
      obtain ⟨hne, hrdb⟩ := (List.Nodup.mem_erase_iff hnd).mp hr
      exact hne (unordered_eq hU hrdb hconnmem hp hpair)
    refine ⟨?_, ?_, ?_⟩
    · intro hvz
      obtain ⟨r, hr, hracc, hinv, hcp⟩ := (mem_connectionsOf _ u v).mp hvz
      by_cases hfu : r.fromUserId = u
      · rw [if_pos hfu] at hcp
        exact hnone r hr (Or.inl ⟨hfu, hcp.symm⟩)
      · rw [if_neg hfu] at hcp
        rcases hinv with hinv | hinv
        · exact absurd hinv hfu
        · exact hnone r hr (Or.inr ⟨hcp.symm, hinv⟩)
    · intro huz
      obtain ⟨r, hr, hracc, hinv, hcp⟩ := (mem_connectionsOf _ v u).mp huz
      by_cases hfv : r.fromUserId = v
      · rw [if_pos hfv] at hcp
        exact hnone r hr (Or.inr ⟨hfv, hcp.symm⟩)
      · rw [if_neg hfv] at hcp
        rcases hinv with hinv | hinv
        · exact absurd hinv hfv
        · exact hnone r hr (Or.inl ⟨hcp.symm, hinv⟩)
    · intro hv hne
      have hrev : ((db.requests.erase conn).any
          (fun x => decide (x.fromUserId = v ∧ x.toUserId = u))) = false := by
        rw [← Bool.not_eq_true, any_pair_iff]
        rintro ⟨x, hx, h1, h2⟩
        exact hnone x hx (Or.inr ⟨h1, h2⟩)
      have hdup : ((db.requests.erase conn).any
          (fun x => decide (x.fromUserId = u ∧ x.toUserId = v))) = false := by
        rw [← Bool.not_eq_true, any_pair_iff]
        rintro ⟨x, hx, h1, h2⟩
        exact hnone x hx (Or.inl ⟨h1, h2⟩)
      refine ⟨(⟨u, v, Status.interested⟩,
        ⟨db.users, db.requests.erase conn ++ [⟨u, v, Status.interested⟩]⟩), ?_⟩
      rw [sendRequest, if_neg (not_not_intro (Or.inl rfl)), if_neg (not_not_intro hv),
        if_neg hne, if_neg (by rw [hrev]; exact Bool.false_ne_true),
        if_neg (by rw [hdup]; exact Bool.false_ne_true)]
      rfl

/-- C8 witness: removing the concrete accepted connection between users 1
and 2 succeeds, after which neither lists the other and a fresh send is
legal. -/
theorem removeConnection_spec_c8_witness :
    (∃ db', removeConnection ⟨[1, 2], [⟨1, 2, .accepted⟩]⟩ 1 2 = .ok db') ∧
    ((2 : Nat) ∉ connectionsOf ⟨[1, 2], []⟩ 1 ∧
     (1 : Nat) ∉ connectionsOf ⟨[1, 2], []⟩ 2 ∧
     ((2 : Nat) ∈ (DB.mk [1, 2] [⟨1, 2, .accepted⟩]).users → (1 : Nat) ≠ 2 →
       ∃ p, sendRequest ⟨[1, 2], []⟩ 1 2 "interested" = .ok p)) :=
  ⟨(removeConnection_spec_c8 ⟨[1, 2], [⟨1, 2, .accepted⟩]⟩ 1 2).1.mpr
    ⟨⟨1, 2, .accepted⟩, by decide, rfl, Or.inl ⟨rfl, rfl⟩⟩,
   ((removeConnection_spec_c8 ⟨[1, 2], [⟨1, 2, .accepted⟩]⟩ 1 2).2.2
     ⟨[1, 2], []⟩ rfl).2.2 (by unfold UnorderedUnique; exact List.pairwise_singleton _ _)⟩

/-- Users are never created or destroyed by a workflow step. -/
theorem step_users {db db' : DB} (h : Step db db') : db'.users = db.users := by
  cases h with
  | send A B s r₀ db₂ hA hok =>
    obtain ⟨_, _, _, _, _, _, hdb'⟩ := sendRequest_ok_inv hok
    subst hdb'
    rfl
  | review A B s r₀ db₂ hA hok =>
    obtain ⟨_, _, _, _, _, _, _, hdb'⟩ := reviewRequest_ok_inv hok
    subst hdb'
    rfl
  | remove A B db₂ hA hok =>
    obtain ⟨conn, _, _, _, hdb'⟩ := removeConnection_ok_inv hok
    subst hdb'
    rfl

/-- Users are unchanged along any sequence of workflow steps. -/
theorem trace_users {db db' : DB} (h : Relation.ReflTransGen Step db db') :
    db'.users = db.users := by
  induction h with
  | refl => rfl
  | tail hab hbc ih => exact (step_users hbc).trans ih

/-- No workflow step can make the two directed records of one unordered
pair coexist: a send checks both directions first, a review keeps every
pair, a removal only deletes. -/
theorem step_not_both_directions {A B : Nat} {db db' : DB} (hstep : Step db db')
    (hP : ¬ ((∃ x ∈ db.requests, x.fromUserId = A ∧ x.toUserId = B) ∧
             (∃ x ∈ db.requests, x.fromUserId = B ∧ x.toUserId = A))) :
    ¬ ((∃ x ∈ db'.requests, x.fromUserId = A ∧ x.toUserId = B) ∧
       (∃ x ∈ db'.requests, x.fromUserId = B ∧ x.toUserId = A)) := by
  cases hstep with
  | send C D s r₀ db₂ hC hok =>
    obtain ⟨_, _, hCD, hrev, _, hr₀, hdb'⟩ := sendRequest_ok_inv hok
    subst hdb'
    subst hr₀
    rintro ⟨⟨x, hx, hx1, hx2⟩, ⟨y, hy, hy1, hy2⟩⟩
    rcases List.mem_append.mp hx with hx | hx <;>
      rcases List.mem_append.mp hy with hy | hy
    · exact hP ⟨⟨x, hx, hx1, hx2⟩, ⟨y, hy, hy1, hy2⟩⟩
    · rw [List.mem_singleton] at hy
      subst hy
      exact hrev x hx ⟨hx1.trans hy2.symm, hx2.trans hy1.symm⟩
    · rw [List.mem_singleton] at hx
      subst hx
      exact hrev y hy ⟨hy1.trans hx2.symm, hy2.trans hx1.symm⟩
    · rw [List.mem_singleton] at hx hy
      subst hx
      subst hy
      exact hCD (hx1.trans hy2.symm)
  | review C D s r₀ db₂ hC hok =>
    obtain ⟨_, _, _, _, _, _, _, hdb'⟩ := reviewRequest_ok_inv hok
    subst hdb'
    rintro ⟨⟨x, hx, hx1, hx2⟩, ⟨y, hy, hy1, hy2⟩⟩
    obtain ⟨x', hx', hxf, hxt⟩ := updateFirst_pairs db.requests D C _ x hx
    obtain ⟨y', hy', hyf, hyt⟩ := updateFirst_pairs db.requests D C _ y hy
    exact hP ⟨⟨x', hx', hxf.symm.trans hx1, hxt.symm.trans hx2⟩,
      ⟨y', hy', hyf.symm.trans hy1, hyt.symm.trans hy2⟩⟩
  | remove C D db₂ hC hok =>
    obtain ⟨conn, _, _, _, hdb'⟩ := removeConnection_ok_inv hok
    subst hdb'
    rintro ⟨⟨x, hx, hx1, hx2⟩, ⟨y, hy, hy1, hy2⟩⟩
    exact hP ⟨⟨x, List.mem_of_mem_erase hx, hx1, hx2⟩,
      ⟨y, List.mem_of_mem_erase hy, hy1, hy2⟩⟩

/-- Along any sequence of workflow steps, once at most one direction of a
pair is stored, at most one direction stays stored. -/
theorem trace_not_both_directions {A B : Nat} {db db' : DB}
    (htrace : Relation.ReflTransGen Step db db')
    (hP : ¬ ((∃ x ∈ db.requests, x.fromUserId = A ∧ x.toUserId = B) ∧
             (∃ x ∈ db.requests, x.fromUserId = B ∧ x.toUserId = A))) :
    ¬ ((∃ x ∈ db'.requests, x.fromUserId = A ∧ x.toUserId = B) ∧
       (∃ x ∈ db'.requests, x.fromUserId = B ∧ x.toUserId = A)) := by
  induction htrace with
  | refl => exact hP
  | tail hab hbc ih => exact step_not_both_directions hbc ih

/-- C6: once `sendRequest A B "interested"` has succeeded, in every state
reachable from it by further workflow operations in which a record of the
ordered pair (A, B) still exists (with any status: a review only flips the
status in place), every send between the two users fails: A resending gets
an error for every status string (DuplicateRelationship when the status is
valid), and B sending back gets an error for every status string
(ReverseRequestExists when the status is valid). -/
theorem sendRequest_after_success_blocks_c6 (db : DB) (A B : Nat)
    (r : ConnectionRequest) (db' : DB) (hA : A ∈ db.users)
    (h : sendRequest db A B "interested" = .ok (r, db'))
    (db₂ : DB) (htrace : Relation.ReflTransGen Step db' db₂)
    (hexists : ∃ x ∈ db₂.requests, x.fromUserId = A ∧ x.toUserId = B)
    (s : String) :
    (∃ e, sendRequest db₂ A B s = .error e) ∧
    (∃ e, sendRequest db₂ B A s = .error e) ∧
    ((s = "interested" ∨ s = "ignored") →
      sendRequest db₂ A B s = .error .duplicateRelationship ∧
      sendRequest db₂ B A s = .error .reverseRequestExists) := by
  obtain ⟨hs, hB, hAB, hrev, hdup, hr, hdb'⟩ := sendRequest_ok_inv h
  have husers : db₂.users = db.users := by
    rw [trace_users htrace, hdb']
  have hP0 : ¬ ((∃ x ∈ db'.requests, x.fromUserId = A ∧ x.toUserId = B) ∧
                (∃ x ∈ db'.requests, x.fromUserId = B ∧ x.toUserId = A)) := by
    rintro ⟨-, ⟨y, hy, hy1, hy2⟩⟩
    rw [hdb'] at hy
    rcases List.mem_append.mp hy with hy | hy
    · exact hrev y hy ⟨hy1, hy2⟩
    · rw [List.mem_singleton] at hy
      subst hy
      rw [hr] at hy1
      exact hAB hy1
  have hP2 := trace_not_both_directions htrace hP0
  have hnorev : ∀ x ∈ db₂.requests, ¬ (x.fromUserId = B ∧ x.toUserId = A) := by
    intro x hx hpair
    exact hP2 ⟨hexists, ⟨x, hx, hpair.1, hpair.2⟩⟩
  have hB2 : B ∈ db₂.users := by rw [husers]; exact hB
  have hA2 : A ∈ db₂.users := by rw [husers]; exact hA
  have hrevb : (db₂.requests.any
      (fun x => decide (x.fromUserId = B ∧ x.toUserId = A))) = false := by
    rw [← Bool.not_eq_true, any_pair_iff]
    rintro ⟨x, hx, h1, h2⟩
    exact hnorev x hx ⟨h1, h2⟩
  have hdupb : (db₂.requests.any
      (fun x => decide (x.fromUserId = A ∧ x.toUserId = B))) = true := by
    rw [any_pair_iff]
    obtain ⟨x, hx, h1, h2⟩ := hexists
    exact ⟨x, hx, h1, h2⟩
  have hdupsend : ∀ s₀ : String, (s₀ = "interested" ∨ s₀ = "ignored") →
      sendRequest db₂ A B s₀ = .error .duplicateRelationship := by
    intro s₀ hs₀
    rw [sendRequest, if_neg (not_not_intro hs₀), if_neg (not_not_intro hB2),
      if_neg hAB, if_neg (by rw [hrevb]; exact Bool.false_ne_true),
      if_pos hdupb]
  have hrevsend : ∀ s₀ : String, (s₀ = "interested" ∨ s₀ = "ignored") →
      sendRequest db₂ B A s₀ = .error .reverseRequestExists := by
    intro s₀ hs₀
    rw [sendRequest, if_neg (not_not_intro hs₀), if_neg (not_not_intro hA2),
      if_neg (fun hBA => hAB hBA.symm), if_pos hdupb]
  by_cases hsv : s = "interested" ∨ s = "ignored"
  · exact ⟨⟨_, hdupsend s hsv⟩, ⟨_, hrevsend s hsv⟩,
      fun _ => ⟨hdupsend s hsv, hrevsend s hsv⟩⟩
  · refine ⟨⟨.invalidStatus, ?_⟩, ⟨.invalidStatus, ?_⟩, fun hc => absurd hc hsv⟩
    · rw [sendRequest, if_pos hsv]
    · rw [sendRequest, if_pos hsv]

/-- C6 witness: after the concrete send 1 → 2 succeeds, two further steps
happen (2 accepts the request, then 3 sends an unrelated ignored request);
in the resulting state both re-sends between 1 and 2 still fail with the
expected errors. -/
theorem sendRequest_after_success_blocks_c6_witness :
    sendRequest ⟨[1, 2, 3], [⟨1, 2, .accepted⟩, ⟨3, 1, .ignored⟩]⟩ 1 2 "ignored" =
      .error .duplicateRelationship ∧
    sendRequest ⟨[1, 2, 3], [⟨1, 2, .accepted⟩, ⟨3, 1, .ignored⟩]⟩ 2 1 "ignored" =
      .error .reverseRequestExists :=
  (sendRequest_after_success_blocks_c6 ⟨[1, 2, 3], []⟩ 1 2 ⟨1, 2, .interested⟩
    ⟨[1, 2, 3], [⟨1, 2, .interested⟩]⟩ (by decide) rfl
    ⟨[1, 2, 3], [⟨1, 2, .accepted⟩, ⟨3, 1, .ignored⟩]⟩
    (Relation.ReflTransGen.tail
      (Relation.ReflTransGen.single
        (Step.review ⟨[1, 2, 3], [⟨1, 2, .interested⟩]⟩ 2 1 "accepted"
          ⟨1, 2, .accepted⟩ ⟨[1, 2, 3], [⟨1, 2, .accepted⟩]⟩ (by decide) rfl))
      (Step.send ⟨[1, 2, 3], [⟨1, 2, .accepted⟩]⟩ 3 1 "ignored" ⟨3, 1, .ignored⟩
        ⟨[1, 2, 3], [⟨1, 2, .accepted⟩, ⟨3, 1, .ignored⟩]⟩ (by decide) rfl))
    ⟨⟨1, 2, .accepted⟩, by decide, rfl, rfl⟩ "ignored").2.2 (Or.inr rfl)
